import Mathlib

/-!
Verification development for the jarvis-api chat-assistant backend
(`src/server.js`, final snapshot).  JavaScript strings are modelled as
Lean `String` / `List Char`; `Date.now()` timestamps as `Nat`; the
in-memory `Map`s as functions `String → Option _`; `fetch` and
`new URL(...)` as explicit environment parameters.  Regex-based
replacements are modelled by fuelled left-to-right scanners with the
same match semantics; the fuel is always instantiated with the input
length, which is sufficient because every step consumes at least one
character.
-/

namespace Jarvis

/-- JS `Char`-wise `toLowerCase` (ASCII, as exercised by the service). -/
def jsLowerChars (l : List Char) : List Char := l.map Char.toLower

/-- Whitespace trim on both ends, modelling JS `String.prototype.trim`. -/
def trimWs (l : List Char) : List Char :=
  ((l.dropWhile Char.isWhitespace).reverse.dropWhile Char.isWhitespace).reverse

/-- JS `s.trim()`. -/
def jsTrim (s : String) : String := ⟨trimWs s.data⟩

/-- JS `s.toLowerCase()`. -/
def jsLower (s : String) : String := ⟨jsLowerChars s.data⟩

/-- True when `p` is a leading block of `s` (used for literal matching). -/
def startsWithChars : List Char → List Char → Bool
  | [], _ => true
  | _ :: _, [] => false
  | p :: ps, c :: cs => p == c && startsWithChars ps cs

/-- JS `hay.includes(needle)` on char lists. -/
def occursIn (needle : List Char) : List Char → Bool
  | [] => needle.isEmpty
  | c :: rest => startsWithChars needle (c :: rest) || occursIn needle rest

/-- JS `hay.includes(needle)` on strings. -/
def occursS (needle hay : String) : Bool := occursIn needle.data hay.data

/-- Effect of the regex replace `/^www\./` with `""`: drop one leading
`www.` label if present. -/
def stripWww (l : List Char) : List Char :=
  if l.take 4 = ['w', 'w', 'w', '.'] then l.drop 4 else l

/-- `normDomain` from `server.js`: lowercase, strip one leading `www.`,
then trim. -/
def normDomain (d : String) : String := ⟨trimWs (stripWww (jsLowerChars d.data))⟩

/-- `getSiteKey` from `server.js`: normalized domain first, else lowercased
trimmed `siteId`, else the literal `"default"`. -/
def getSiteKey (siteId domain : String) : String :=
  let d := normDomain domain
  let s : String := jsTrim (jsLower siteId)
  if d ≠ "" then d else if s ≠ "" then s else "default"

/-- `isWakePhrase` from `server.js`. -/
def isWakePhrase (text : String) : Bool :=
  let t := jsLower (jsTrim text)
  t == "hey jarvis" || t == "hey jarvis." || t == "hey jarvis!"

/-- `isBookingIntent` from `server.js`. -/
def isBookingIntent (text : String) : Bool :=
  let t := jsLower text
  occursS "book" t ||
  occursS "booking" t ||
  occursS "appointment" t ||
  occursS "schedule" t ||
  occursS "reserve" t ||
  occursS "consultation" t ||
  (occursS "call" t && occursS "book" t)

/-- Substring occurrence as a proposition: `needle` occurs contiguously
inside `hay`. -/
def containsSub (needle hay : String) : Prop :=
  ∃ a b, hay.data = a ++ needle.data ++ b

/-- Split at the first `>`: `some (before, after)` with the `>` removed,
`none` when the list has no `>`. -/
def findGt : List Char → Option (List Char × List Char)
  | [] => none
  | c :: rest =>
    if c = '>' then some ([], rest)
    else
      match findGt rest with
      | some (a, b) => some (c :: a, b)
      | none => none

/-- True when the regex `<[^>]+>` would match at a position whose `<` is
followed by `l`: the first `>` of `l` exists and is not its head. -/
def gapGt (l : List Char) : Bool :=
  match findGt l with
  | some (_ :: _, _) => true
  | _ => false

/-- True when some complete tag `<[^>]+>` occurs in the list. -/
def hasTag : List Char → Bool
  | [] => false
  | c :: rest => (c == '<' && gapGt rest) || hasTag rest

/-- Case-insensitive literal match at the head, modelling a `/i` regex
literal. -/
def ciStartsWith : List Char → List Char → Bool
  | [], _ => true
  | _ :: _, [] => false
  | p :: ps, c :: cs => p.toLower == c.toLower && ciStartsWith ps cs

/-- Drop through the first case-insensitive occurrence of `pat`, returning
the suffix after it, or `none` when `pat` never occurs. -/
def ciDropThrough (pat : List Char) : List Char → Option (List Char)
  | [] => if pat.isEmpty then some [] else none
  | c :: rest =>
    if ciStartsWith pat (c :: rest) then some ((c :: rest).drop pat.length)
    else ciDropThrough pat rest

/-- One fuelled left-to-right pass of the global replace
`/<tag[\s\S]*?>[\s\S]*?<\/tag>/gi → " "`: at a case-insensitive `openPat`
the lazy groups reach the first `>` and then the first `closePat`; when no
such close exists the scan advances one character, as the regex engine
does. -/
def stripBlocksGo (openPat closePat : List Char) : Nat → List Char → List Char
  | 0, l => l
  | _ + 1, [] => []
  | n + 1, c :: rest =>
    if ciStartsWith openPat (c :: rest) then
      match findGt ((c :: rest).drop openPat.length) with
      | some (_, post) =>
        match ciDropThrough closePat post with
        | some post2 => ' ' :: stripBlocksGo openPat closePat n post2
        | none => c :: stripBlocksGo openPat closePat n rest
      | none => c :: stripBlocksGo openPat closePat n rest
    else c :: stripBlocksGo openPat closePat n rest

/-- Regex step `/<script[\s\S]*?>[\s\S]*?<\/script>/gi → " "`. -/
def stripScript (l : List Char) : List Char :=
  stripBlocksGo "<script".data "</script>".data l.length l

/-- Regex step `/<style[\s\S]*?>[\s\S]*?<\/style>/gi → " "`. -/
def stripStyle (l : List Char) : List Char :=
  stripBlocksGo "<style".data "</style>".data l.length l

/-- Fuelled global case-insensitive literal replace. -/
def replaceLitCIGo (pat rep : List Char) : Nat → List Char → List Char
  | 0, l => l
  | _ + 1, [] => []
  | n + 1, c :: rest =>
    if ciStartsWith pat (c :: rest) then
      rep ++ replaceLitCIGo pat rep n ((c :: rest).drop pat.length)
    else c :: replaceLitCIGo pat rep n rest

/-- Regex step `/<\/p>/gi → "\n"`. -/
def replaceCloseP (l : List Char) : List Char :=
  replaceLitCIGo "</p>".data "\n".data l.length l

/-- Match of `/<br\s*\/?>/i` at the head: `some` returns the suffix after
the matched break tag. -/
def matchBr (l : List Char) : Option (List Char) :=
  if ciStartsWith "<br".data l then
    match (l.drop 3).dropWhile Char.isWhitespace with
    | '/' :: '>' :: rest => some rest
    | '>' :: rest => some rest
    | _ => none
  else none

/-- Fuelled global replace `/<br\s*\/?>/gi → "\n"`. -/
def replaceBrGo : Nat → List Char → List Char
  | 0, l => l
  | _ + 1, [] => []
  | n + 1, c :: rest =>
    match matchBr (c :: rest) with
    | some rest2 => '\n' :: replaceBrGo n rest2
    | none => c :: replaceBrGo n rest

/-- Regex step `/<br\s*\/?>/gi → "\n"`. -/
def replaceBr (l : List Char) : List Char := replaceBrGo l.length l

/-- Fuelled global replace `/<[^>]+>/g → " "`: a `<` whose first following
`>` is not adjacent starts a match removed wholesale; otherwise the `<` is
kept and the scan advances. -/
def stripTagsGo : Nat → List Char → List Char
  | 0, l => l
  | _ + 1, [] => []
  | n + 1, c :: rest =>
    if c = '<' then
      match findGt rest with
      | some (_ :: _, post) => ' ' :: stripTagsGo n post
      | _ => '<' :: stripTagsGo n rest
    else c :: stripTagsGo n rest

/-- Regex step `/<[^>]+>/g → " "`. -/
def stripTags (l : List Char) : List Char := stripTagsGo l.length l

/-- Regex step `/\s+/g → " "`: each maximal whitespace run becomes one
space. -/
def collapseWs : List Char → List Char
  | [] => []
  | [c] => if c.isWhitespace then [' '] else [c]
  | c :: c2 :: rest =>
    if c.isWhitespace then
      if c2.isWhitespace then collapseWs (c2 :: rest)
      else ' ' :: collapseWs (c2 :: rest)
    else c :: collapseWs (c2 :: rest)

/-- `cleanHtmlToText` from `server.js`: the six regex replaces in source
order followed by `trim`.  Total by construction, which is the claim's
never-throws half. -/
def cleanHtmlToText (html : String) : String :=
  ⟨trimWs (collapseWs (stripTags (replaceBr (replaceCloseP
    (stripStyle (stripScript html.data))))))⟩

/-- `RATE_WINDOW_MS` from `server.js`: one minute. -/
def RATE_WINDOW_MS : Nat := 60000

/-- `RATE_MAX` from `server.js`: 60 requests per window per client. -/
def RATE_MAX : Nat := 60

/-- One `rateMap` value: request count and window reset time. -/
structure RateEntry where
  count : Nat
  resetAt : Nat
deriving DecidableEq

/-- Outcome of the `rateLimit` middleware for one request: pass to the
handler, or answer immediately with a status and reply text. -/
inductive RateOutcome where
  | next : RateOutcome
  | reject : Nat → String → RateOutcome
deriving DecidableEq

/-- The 429 reply text from `server.js`. -/
def rateLimitMsg : String := "Too many requests. Please try again in a minute."

/-- One `rateLimit` step for a single client entry at time `now`: fresh or
expired windows restart at count 1 and pass; otherwise the count is
incremented (also on rejection) and the request passes iff the count stays
within `RATE_MAX`. -/
def rateLimitStep (entry : Option RateEntry) (now : Nat) : RateOutcome × RateEntry :=
  match entry with
  | none => (RateOutcome.next, ⟨1, now + RATE_WINDOW_MS⟩)
  | some e =>
    if now > e.resetAt then (RateOutcome.next, ⟨1, now + RATE_WINDOW_MS⟩)
    else if e.count + 1 > RATE_MAX then
      (RateOutcome.reject 429 rateLimitMsg, ⟨e.count + 1, e.resetAt⟩)
    else (RateOutcome.next, ⟨e.count + 1, e.resetAt⟩)

/-- Run a sequence of same-client requests at the given times through the
limiter, threading the stored entry. -/
def runTimes : List Nat → Option RateEntry → List RateOutcome × Option RateEntry
  | [], entry => ([], entry)
  | t :: ts, entry =>
    ((rateLimitStep entry t).1 :: (runTimes ts (some (rateLimitStep entry t).2)).1,
      (runTimes ts (some (rateLimitStep entry t).2)).2)

/-- Expected limiter outcomes for a run of in-window requests entered with
stored count `c`. -/
def expectedOutcomes (c : Nat) : Nat → List RateOutcome
  | 0 => []
  | n + 1 =>
    (if c + 1 > RATE_MAX then RateOutcome.reject 429 rateLimitMsg
      else RateOutcome.next) :: expectedOutcomes (c + 1) n

/-- An inbound request as seen by `getIP`: optional `x-forwarded-for`
header, optional socket remote address, and its arrival time. -/
structure Req where
  xff : Option String
  remote : Option String
  now : Nat

/-- `getIP` from `server.js`: first comma-separated entry of the
forwarded-for header (trimmed), else the socket address, else the literal
`unknown`; empty strings are falsy and fall through. -/
def getIP (r : Req) : String :=
  let fwd : String :=
    match r.xff with
    | some h => jsTrim ⟨h.data.takeWhile (fun c => c != ',')⟩
    | none => ""
  if fwd ≠ "" then fwd
  else
    match r.remote with
    | some a => if a ≠ "" then a else "unknown"
    | none => "unknown"

/-- The in-memory `rateMap`, keyed by client address. -/
def RMap : Type := String → Option RateEntry

/-- The initially empty `rateMap`. -/
def emptyRMap : RMap := fun _ => none

/-- Full `rateLimit` middleware step: resolve the client address, step its
entry, and store the updated entry under that address only. -/
def rateLimitReq (m : RMap) (r : Req) : RateOutcome × RMap :=
  (
    (rateLimitStep (m (getIP r)) r.now).1,
    fun k => if k = getIP r then some (rateLimitStep (m (getIP r)) r.now).2 else m k)

/-- Run a mixed-client request sequence through the limiter, pairing each
request with its outcome. -/
def runReqs : List Req → RMap → List (Req × RateOutcome) × RMap
  | [], m => ([], m)
  | r :: rest, m =>
    ((r, (rateLimitReq m r).1) :: (runReqs rest (rateLimitReq m r).2).1,
      (runReqs rest (rateLimitReq m r).2).2)

/-- One indexed page or post as stored by the service. -/
structure Doc where
  id : Nat
  title : String
  url : String
  text : String
deriving DecidableEq

/-- One `siteStore` value: the indexed pages, the update time and the base
URL, always written together. -/
structure SiteEntry where
  pages : List Doc
  updatedAt : Nat
  siteUrl : String
deriving DecidableEq

/-- The in-memory `siteStore`, keyed by site key. -/
def Store : Type := String → Option SiteEntry

/-- The in-memory `syncState`, keyed by site key, holding `lastSyncAt`. -/
def SyncSt : Type := String → Option Nat

/-- The initially empty `siteStore`. -/
def emptyStore : Store := fun _ => none

/-- The initially empty `syncState`. -/
def emptySyncSt : SyncSt := fun _ => none

/-- Fuelled splitter for JS `split(/\s+/).filter(Boolean)`: the maximal
non-whitespace runs, in order. -/
def tokensGo : Nat → List Char → List (List Char)
  | 0, _ => []
  | _ + 1, [] => []
  | n + 1, c :: rest =>
    if c.isWhitespace then tokensGo n rest
    else (c :: rest.takeWhile (fun x => !x.isWhitespace)) ::
      tokensGo n (rest.dropWhile (fun x => !x.isWhitespace))

/-- Whitespace tokens of a char list. -/
def tokens (l : List Char) : List (List Char) := tokensGo l.length l

/-- `scoreDoc` from `server.js`: 2 points per lowercased query token of
length at least 3 occurring in the lowercased document body. -/
def scoreDoc (query docText : String) : Nat :=
  (tokens (jsLower query).data).foldl
    (fun sc w =>
      if w.length < 3 then sc
      else if occursIn w (jsLower docText).data then sc + 2 else sc) 0

/-- The mapped-and-scored page list built inside `pickTopDocs`. -/
def scoredPages (pages : List Doc) (query : String) : List (Doc × Nat) :=
  pages.map (fun p => (p, scoreDoc query p.text))

/-- Scored, positively-filtered, stably descending-sorted candidates; the
JS engine's stable comparator sort is modelled by a stable insertion
sort. -/
def rankedDocs (pages : List Doc) (query : String) : List (Doc × Nat) :=
  List.insertionSort (fun a b => b.2 ≤ a.2)
    ((scoredPages pages query).filter (fun p => decide (0 < p.2)))

/-- `pickTopDocs` from `server.js`. -/
def pickTopDocs (store : Store) (siteKey query : String) (topK : Nat) :
    List (Doc × Nat) :=
  match store siteKey with
  | none => []
  | some site =>
    if site.pages.isEmpty then []
    else (rankedDocs site.pages query).take topK

/-- One fetched WP REST item with its optional rendered fields. -/
structure WPItem where
  id : Nat
  link : Option String
  titleRendered : Option String
  contentRendered : Option String
deriving DecidableEq

/-- A settled `fetch` response: `ok` flag, status, text body, and the
decoded JSON item array. -/
structure FetchResult where
  ok : Bool
  status : Nat
  textBody : String
  jsonItems : List WPItem
deriving DecidableEq

/-- JS `x || dflt` on optional strings: empty and absent are falsy. -/
def jsOrStr (o : Option String) (dflt : String) : String :=
  match o with
  | some s => if s = "" then dflt else s
  | none => dflt

/-- The Document built from one fetched item: defaulted title, URL as
given, cleaned body. -/
def itemToDoc (p : WPItem) : Doc :=
  ⟨p.id, jsOrStr p.titleRendered "Untitled", jsOrStr p.link "",
    cleanHtmlToText (jsOrStr p.contentRendered "")⟩

/-- The sync loop over fetched items: map to Documents, discarding those
whose cleaned body is shorter than 40 characters. -/
def buildDocs : List WPItem → List Doc
  | [] => []
  | p :: rest =>
    let d := itemToDoc p
    if d.text.length < 40 then buildDocs rest else d :: buildDocs rest

/-- The pages collection URL built by `syncSiteContent`. -/
def pagesUrl (base : String) : String :=
  base ++ "/wp-json/wp/v2/pages?per_page=100&_fields=id,link,title,content"

/-- The posts collection URL built by `syncSiteContent`. -/
def postsUrl (base : String) : String :=
  base ++ "/wp-json/wp/v2/posts?per_page=100&_fields=id,link,title,content"

/-- The thrown sync error message: both upstream statuses and both bodies
truncated to 120 characters. -/
def syncErrMsg (p q : FetchResult) : String :=
  "Failed WP REST fetch. pages(" ++ toString p.status ++ ") posts(" ++
    toString q.status ++ ") :: " ++ (⟨p.textBody.data.take 120⟩ : String) ++
    " " ++ (⟨q.textBody.data.take 120⟩ : String)

/-- `SYNC_COOLDOWN_MS` from `server.js`: five minutes. -/
def SYNC_COOLDOWN_MS : Nat := 300000

/-- `shouldSync` from `server.js`. -/
def shouldSync (syncSt : SyncSt) (siteKey : String) (now : Nat) : Bool :=
  match syncSt siteKey with
  | none => true
  | some t => (now : Int) - (t : Int) > (SYNC_COOLDOWN_MS : Int)

/-- `markSynced` from `server.js`. -/
def markSynced (syncSt : SyncSt) (siteKey : String) (now : Nat) : SyncSt :=
  fun k => if k = siteKey then some now else syncSt k

/-- `syncSiteContent` from `server.js`, with `fetch` passed in and the two
store maps threaded explicitly: on any non-ok response the state is
returned untouched with the diagnostic error; on success the site entry is
replaced wholesale and the cooldown is marked. -/
def syncSiteContent (fetch : String → FetchResult) (base siteKey : String)
    (now : Nat) (store : Store) (syncSt : SyncSt) :
    (Store × SyncSt) × Except String Nat :=
  let pagesRes := fetch (pagesUrl base)
  let postsRes := fetch (postsUrl base)
  if pagesRes.ok && postsRes.ok then
    let docs := buildDocs (pagesRes.jsonItems ++ postsRes.jsonItems)
    ((fun k => if k = siteKey then some ⟨docs, now, base⟩ else store k,
        markSynced syncSt siteKey now),
      Except.ok docs.length)
  else ((store, syncSt), Except.error (syncErrMsg pagesRes postsRes))

/-- Scenario fixture: a page whose cleaned body is long enough. -/
def pageA : WPItem :=
  ⟨1, some "https://ex.com/a", some "About Us",
    some "<p>Our services include plumbing, heating, and cooling systems for homes.</p>"⟩

/-- Scenario fixture: a page whose cleaned body is under 40 characters. -/
def pageB : WPItem := ⟨2, some "https://ex.com/b", some "Hi", some "<p>Hi</p>"⟩

/-- Scenario fixture: a post whose cleaned body is long enough. -/
def postC : WPItem :=
  ⟨3, some "https://ex.com/c", some "News",
    some "<p>We opened a second office downtown near the station this year.</p>"⟩

/-- Scenario fetch oracle: 2 pages and 1 post for `https://ex.com`,
404 elsewhere. -/
def fetch1 : String → FetchResult := fun u =>
  if u = pagesUrl "https://ex.com" then ⟨true, 200, "", [pageA, pageB]⟩
  else if u = postsUrl "https://ex.com" then ⟨true, 200, "", [postC]⟩
  else ⟨false, 404, "", []⟩

/-- Retrieval fixture: a document mentioning plumbing. -/
def siteDocA : Doc := ⟨1, "Home", "https://ex.com/", "we offer plumbing and heating services"⟩

/-- Retrieval fixture: a document without the query terms. -/
def siteDocB : Doc := ⟨2, "Contact", "https://ex.com/c", "contact us by phone"⟩

/-- Retrieval fixture store with one indexed site. -/
def store1 : Store := fun k =>
  if k = "ex.com" then some ⟨[siteDocA, siteDocB], 111, "https://ex.com"⟩ else none

deriving instance DecidableEq for Except

/-- The `/v1/chat` request body fields, in destructuring order; absent
fields default to the empty string. -/
structure ChatBody where
  text : String
  bookingUrl : String
  siteId : String
  domain : String
  sessionId : String
  pageUrl : String
  siteUrl : String
deriving DecidableEq

/-- One reply action, such as `open_url`. -/
structure ChatAction where
  type : String
  url : String
deriving DecidableEq

/-- One cited source in a reply. -/
structure ChatSource where
  title : String
  url : String
deriving DecidableEq

/-- The reply `meta` object; absent fields are `none`. -/
structure ChatMeta where
  learned : Bool
  siteKey : String
  updatedAt : Option Nat
  found : Option Nat
deriving DecidableEq

/-- The JSON reply of `/v1/chat`; absent `actions`/`sources`/`meta` are
the empty list / `none`. -/
structure ChatReply where
  replyText : String
  actions : List ChatAction
  sources : List ChatSource
  meta : Option ChatMeta
deriving DecidableEq

/-- One `chatLogs` ring-buffer record. -/
structure LogEntry where
  ts : Nat
  siteKey : String
  sessionId : String
  text : String
  pageUrl : String
deriving DecidableEq

/-- The process-wide mutable state touched by the chat route. -/
structure ServerState where
  siteStore : Store
  syncSt : SyncSt
  chatLogs : List LogEntry

/-- The chat route's environment: the `fetch` oracle, `new URL(u).origin`
(`none` models a parse throw), and `Date.now()`. -/
structure ChatEnv where
  fetch : String → FetchResult
  urlOrigin : String → Option String
  now : Nat

/-- JS `x || null` on an optional number: 0 is falsy. -/
def jsOrNat (o : Option Nat) : Option Nat :=
  match o with
  | some n => if n = 0 then none else some n
  | none => none

/-- Effect of `replace(/\/$/, "")`: drop one trailing slash. -/
def stripTrailSlash (s : String) : String :=
  if s.data.getLast? = some '/' then ⟨s.data.dropLast⟩ else s

/-- The `/v1/chat` handler from `server.js` after the rate-limit gate: log
append with 200-entry eviction, wake-phrase short-circuit, booking-intent
short-circuit, auto-sync of an unindexed site when the throttle allows and
a base URL is derivable (failures swallowed; on error the sync returns the
state unchanged), then retrieval and reply assembly. -/
def chatHandler (env : ChatEnv) (body : ChatBody) (st : ServerState) :
    ChatReply × ServerState :=
  let userText := jsTrim body.text
  let d := normDomain body.domain
  let siteKey := getSiteKey body.siteId d
  let entry : LogEntry :=
    ⟨env.now, siteKey, ⟨body.sessionId.data.take 80⟩, ⟨userText.data.take 400⟩,
      ⟨body.pageUrl.data.take 200⟩⟩
  let logs1 := st.chatLogs ++ [entry]
  let logs2 := if logs1.length > 200 then logs1.drop 1 else logs1
  let st1 : ServerState := ⟨st.siteStore, st.syncSt, logs2⟩
  if isWakePhrase userText then
    (⟨"How can I help you?", [], [], none⟩, st1)
  else if isBookingIntent userText then
    let url := jsTrim body.bookingUrl
    if url ≠ "" then
      (⟨"Sure — I’m taking you to the booking page now.",
        [⟨"open_url", url⟩], [], none⟩, st1)
    else
      (⟨"Sure — I can help you book. Please set your Booking Page URL in WordPress → Jarvis settings.",
        [], [], none⟩, st1)
  else
    let hasSynced : Bool :=
      match st1.siteStore siteKey with
      | some e => !e.pages.isEmpty
      | none => false
    let st2 :=
      if !hasSynced && shouldSync st1.syncSt siteKey env.now then
        let base0 := stripTrailSlash (jsTrim body.siteUrl)
        let base1 :=
          if base0 = "" then
            if body.pageUrl ≠ "" then (env.urlOrigin body.pageUrl).getD "" else ""
          else base0
        let base := if base1 = "" ∧ d ≠ "" then "https://" ++ d else base1
        if base ≠ "" then
          ⟨(syncSiteContent env.fetch base siteKey env.now st1.siteStore st1.syncSt).1.1,
            (syncSiteContent env.fetch base siteKey env.now st1.siteStore st1.syncSt).1.2,
            st1.chatLogs⟩
        else st1
      else st1
    let topDocs := pickTopDocs st2.siteStore siteKey userText 3
    match topDocs with
    | best :: _ =>
      (⟨"Here’s what I found on this website:\n\n" ++
          (⟨best.1.text.data.take 320⟩ : String) ++
          (if best.1.text.length > 320 then "…" else "") ++
          "\n\nIf you tell me what you want (pricing, services, location, contact), I’ll guide you.",
        [],
        topDocs.map (fun p => ⟨p.1.title, p.1.url⟩),
        some ⟨true, siteKey,
          jsOrNat ((st2.siteStore siteKey).map (fun e => e.updatedAt)),
          some topDocs.length⟩⟩, st2)
    | [] =>
      (⟨"I’m still learning this website. Try asking about services, pricing, contact, or booking — and I’ll guide you.",
        [], [], some ⟨false, siteKey, none, none⟩⟩, st2)

/-- Chat fixture: environment with failing fetch, unparsable URLs, time 0. -/
def env0 : ChatEnv := ⟨fun _ => ⟨false, 404, "", []⟩, fun _ => none, 0⟩

/-- Chat fixture: empty server state. -/
def st0 : ServerState := ⟨emptyStore, emptySyncSt, []⟩

/-- Chat fixture: booking text with a whitespace-only booking URL. -/
def bodyBook : ChatBody := ⟨"book a visit", " ", "", "", "", "", ""⟩

/-- Chat fixture: the wake-phrase scenario body. -/
def bodyWake : ChatBody := ⟨" Hey Jarvis! ", "", "", "", "", "", ""⟩

/-- Chat fixture: the booking scenario body from the spec. -/
def bodyBookGood : ChatBody :=
  ⟨"I want to book an appointment", "https://x.test/book", "", "", "", "", ""⟩

instance : IsTotal (Doc × Nat) (fun a b => b.2 ≤ a.2) :=
  ⟨fun a b => Nat.le_total b.2 a.2⟩

instance : IsTrans (Doc × Nat) (fun a b => b.2 ≤ a.2) :=
  ⟨fun _ _ _ hab hbc => Nat.le_trans hbc hab⟩

end Jarvis

namespace Jarvis

/-- Prefixing `www.` is erased by `normDomain`. -/
theorem normDomain_www_append (d : String) :
    normDomain ("www." ++ d) = ⟨trimWs (jsLowerChars d.data)⟩ := by
  have hdata : ("www." ++ d).data = 'w' :: 'w' :: 'w' :: '.' :: d.data := by
    show (String.mk ('w' :: 'w' :: 'w' :: '.' :: []) ++ d).data = _
    simp [String.data_append]
  have hw : Char.toLower 'w' = 'w' := by decide
  have hp : Char.toLower '.' = '.' := by decide
  unfold normDomain
  rw [hdata]
  have hmap : jsLowerChars ('w' :: 'w' :: 'w' :: '.' :: d.data) =
      'w' :: 'w' :: 'w' :: '.' :: jsLowerChars d.data := by
    simp [jsLowerChars, hw, hp]
  rw [hmap]
  unfold stripWww
  simp

/-- When the lowercased domain does not start with `www.`, `normDomain`
only lowercases and trims. -/
theorem normDomain_not_www (d : String)
    (h : (jsLowerChars d.data).take 4 ≠ ['w', 'w', 'w', '.']) :
    normDomain d = ⟨trimWs (jsLowerChars d.data)⟩ := by
  unfold normDomain stripWww
  rw [if_neg h]

/-- C1 amendment support: `www.`-prefixing collapses provided the lowercased
domain does not itself start with `www.`. -/
theorem getSiteKey_www (d s : String)
    (h : (jsLowerChars d.data).take 4 ≠ ['w', 'w', 'w', '.']) :
    getSiteKey s ("www." ++ d) = getSiteKey s d := by
  simp only [getSiteKey]
  rw [normDomain_www_append, normDomain_not_www d h]

/-- The C1 claim as stated fails: a domain already starting with `www.`
does not collide with its `www.`-prefixed form. -/
theorem C1_counterexample :
    getSiteKey "" "www.example.com" = "example.com" ∧
    getSiteKey "" ("www." ++ "www.example.com") = "www.example.com" ∧
    ("example.com" : String) ≠ "www.example.com" := by
  refine ⟨by decide, by decide, by decide⟩

/-- C1 (amended): for every site identifier `s` and every domain `d` whose
lowercased form does not itself start with `www.`, the site key resolved
from `(www. ++ d, s)` equals the one resolved from `(d, s)`; the amendment
excludes domains already carrying a `www.` label, where the single
`^www\.` strip makes the keys differ. -/
theorem C1_siteKey_www_amended (d s : String)
    (h : (jsLowerChars d.data).take 4 ≠ ['w', 'w', 'w', '.']) :
    getSiteKey s ("www." ++ d) = getSiteKey s d :=
  getSiteKey_www d s h

/-- Witness for C1 at the spec's own example pair. -/
theorem C1_siteKey_www_amended_witness :
    (jsLowerChars ("example.com" : String).data).take 4 ≠ ['w', 'w', 'w', '.'] ∧
    getSiteKey "" ("www." ++ "example.com") = getSiteKey "" "example.com" :=
  ⟨by decide, C1_siteKey_www_amended "example.com" "" (by decide)⟩

/-- A literal block matches exactly when it is a leading block. -/
theorem startsWithChars_iff (p : List Char) : ∀ l : List Char,
    startsWithChars p l = true ↔ ∃ t, l = p ++ t := by
  induction p with
  | nil => intro l; simp [startsWithChars]
  | cons a ps ih =>
    intro l
    cases l with
    | nil =>
      simp [startsWithChars]
    | cons c cs =>
      simp only [startsWithChars, Bool.and_eq_true, beq_iff_eq, ih]
      constructor
      · rintro ⟨rfl, t, rfl⟩
        exact ⟨t, rfl⟩
      · rintro ⟨t, ht⟩
        simp only [List.cons_append, List.cons.injEq] at ht
        exact ⟨ht.1.symm, t, ht.2⟩

/-- The `includes` scanner decides contiguous substring occurrence. -/
theorem occursIn_iff (n : List Char) : ∀ l : List Char,
    occursIn n l = true ↔ ∃ a b, l = a ++ n ++ b := by
  intro l
  induction l with
  | nil =>
    simp only [occursIn, List.isEmpty_iff]
    constructor
    · rintro rfl
      exact ⟨[], [], rfl⟩
    · rintro ⟨a, b, h⟩
      rcases List.append_eq_nil.mp h.symm with ⟨h1, h2⟩
      rcases List.append_eq_nil.mp h1 with ⟨-, h3⟩
      exact h3
  | cons c cs ih =>
    simp only [occursIn, Bool.or_eq_true, startsWithChars_iff, ih]
    constructor
    · rintro (⟨t, ht⟩ | ⟨a, b, rfl⟩)
      · exact ⟨[], t, by simpa using ht⟩
      · exact ⟨c :: a, b, rfl⟩
    · rintro ⟨a, b, h⟩
      cases a with
      | nil =>
        left
        exact ⟨b, by simpa using h⟩
      | cons x xs =>
        right
        simp only [List.cons_append, List.cons.injEq] at h
        exact ⟨xs, b, h.2⟩

/-- `occursS` decides the substring proposition. -/
theorem occursS_iff (n h : String) : occursS n h = true ↔ containsSub n h :=
  occursIn_iff n.data h.data
/-- One-step unfolding of the tag detector. -/
theorem hasTag_cons (c : Char) (l : List Char) :
    hasTag (c :: l) = ((c == '<' && gapGt l) || hasTag l) := rfl

/-- First-`>` split at a `>` head. -/
theorem findGt_cons_gt (rest : List Char) : findGt ('>' :: rest) = some ([], rest) := by
  simp [findGt]

/-- First-`>` split through a non-`>` head, successful tail. -/
theorem findGt_cons_ne_some {c : Char} {rest a b : List Char} (hc : c ≠ '>')
    (h : findGt rest = some (a, b)) : findGt (c :: rest) = some (c :: a, b) := by
  simp [findGt, hc, h]

/-- First-`>` split through a non-`>` head, failing tail. -/
theorem findGt_cons_ne_none {c : Char} {rest : List Char} (hc : c ≠ '>')
    (h : findGt rest = none) : findGt (c :: rest) = none := by
  simp [findGt, hc, h]

/-- A successful `findGt` splits the list at its first `>`. -/
theorem findGt_some_shape : ∀ {l a b : List Char},
    findGt l = some (a, b) → l = a ++ '>' :: b := by
  intro l
  induction l with
  | nil => intro a b h; simp [findGt] at h
  | cons c rest ih =>
    intro a b h
    by_cases hc : c = '>'
    · subst hc
      rw [findGt_cons_gt] at h
      simp only [Option.some.injEq, Prod.mk.injEq] at h
      obtain ⟨rfl, rfl⟩ := h
      rfl
    · cases hr : findGt rest with
      | none => rw [findGt_cons_ne_none hc hr] at h; exact absurd h (by simp)
      | some p =>
        obtain ⟨a', b'⟩ := p
        rw [findGt_cons_ne_some hc hr] at h
        simp only [Option.some.injEq, Prod.mk.injEq] at h
        obtain ⟨rfl, rfl⟩ := h
        rw [List.cons_append, ih hr]

/-- The prefix produced by `findGt` holds no `>`. -/
theorem findGt_some_not_mem : ∀ {l a b : List Char},
    findGt l = some (a, b) → '>' ∉ a := by
  intro l
  induction l with
  | nil => intro a b h; simp [findGt] at h
  | cons c rest ih =>
    intro a b h
    by_cases hc : c = '>'
    · subst hc
      rw [findGt_cons_gt] at h
      simp only [Option.some.injEq, Prod.mk.injEq] at h
      obtain ⟨rfl, rfl⟩ := h
      simp
    · cases hr : findGt rest with
      | none => rw [findGt_cons_ne_none hc hr] at h; exact absurd h (by simp)
      | some p =>
        obtain ⟨a', b'⟩ := p
        rw [findGt_cons_ne_some hc hr] at h
        simp only [Option.some.injEq, Prod.mk.injEq] at h
        obtain ⟨rfl, rfl⟩ := h
        intro hmem
        rcases List.mem_cons.mp hmem with h1 | h1
        · exact hc h1.symm
        · exact ih hr h1

/-- `findGt` fails exactly on `>`-free lists. -/
theorem findGt_none_iff : ∀ {l : List Char}, findGt l = none ↔ '>' ∉ l := by
  intro l
  induction l with
  | nil => simp [findGt]
  | cons c rest ih =>
    by_cases hc : c = '>'
    · subst hc
      rw [findGt_cons_gt]
      simp
    · cases hr : findGt rest with
      | none =>
        rw [findGt_cons_ne_none hc hr]
        simp only [List.mem_cons, not_or]
        constructor
        · intro _
          exact ⟨fun h => hc h.symm, ih.mp hr⟩
        · intro _
          trivial
      | some p =>
        obtain ⟨a, b⟩ := p
        rw [findGt_cons_ne_some hc hr]
        simp only [List.mem_cons, not_or]
        constructor
        · intro h; exact absurd h (by simp)
        · intro h
          rw [ih.mpr h.2] at hr
          exact absurd hr (by simp)

/-- Splitting at the first `>` measures the list. -/
theorem findGt_some_length {l a b : List Char} (h : findGt l = some (a, b)) :
    l.length = a.length + b.length + 1 := by
  rw [findGt_some_shape h]
  simp
  omega

/-- Appending on the right keeps a successful first-`>` split. -/
theorem findGt_append_some : ∀ {a p q : List Char} (b : List Char),
    findGt a = some (p, q) → findGt (a ++ b) = some (p, q ++ b) := by
  intro a
  induction a with
  | nil => intro p q b h; simp [findGt] at h
  | cons c rest ih =>
    intro p q b h
    by_cases hc : c = '>'
    · subst hc
      rw [findGt_cons_gt] at h
      simp only [Option.some.injEq, Prod.mk.injEq] at h
      obtain ⟨rfl, rfl⟩ := h
      rw [List.cons_append, findGt_cons_gt]
    · cases hr : findGt rest with
      | none => rw [findGt_cons_ne_none hc hr] at h; exact absurd h (by simp)
      | some pr =>
        obtain ⟨a', b'⟩ := pr
        rw [findGt_cons_ne_some hc hr] at h
        simp only [Option.some.injEq, Prod.mk.injEq] at h
        obtain ⟨rfl, rfl⟩ := h
        rw [List.cons_append, findGt_cons_ne_some hc (ih b hr)]

/-- On a `>`-free prefix the first `>` split lands on the appended `>`. -/
theorem findGt_append_gt : ∀ {m : List Char} (b : List Char),
    '>' ∉ m → findGt (m ++ '>' :: b) = some (m, b) := by
  intro m
  induction m with
  | nil => intro b _; simpa using findGt_cons_gt b
  | cons c rest ih =>
    intro b h
    simp only [List.mem_cons, not_or] at h
    rw [List.cons_append, findGt_cons_ne_some (fun hc => h.1 hc.symm) (ih b h.2)]

/-- `hasTag` is monotone under cons removal. -/
theorem hasTag_cons_false {c : Char} {l : List Char} (h : hasTag (c :: l) = false) :
    hasTag l = false := by
  rw [hasTag_cons] at h
  exact (Bool.or_eq_false_iff.mp h).2

/-- At a `<` head, tag-freeness forces a failing gap test. -/
theorem hasTag_cons_gap {l : List Char} (h : hasTag ('<' :: l) = false) :
    gapGt l = false := by
  rw [hasTag_cons] at h
  have h1 := (Bool.or_eq_false_iff.mp h).1
  cases hg : gapGt l with
  | false => rfl
  | true => rw [hg] at h1; exact absurd h1 (by simp)

/-- `hasTag` detects exactly the complete-tag substrings `<[^>]+>`. -/
theorem hasTag_iff : ∀ l : List Char, hasTag l = true ↔
    ∃ a m b, l = a ++ '<' :: (m ++ '>' :: b) ∧ m ≠ [] ∧ '>' ∉ m := by
  intro l
  induction l with
  | nil =>
    simp only [hasTag]
    constructor
    · intro h; exact absurd h (by simp)
    · rintro ⟨a, m, b, h, -, -⟩
      exact absurd h (by simp)
  | cons c rest ih =>
    rw [hasTag_cons]
    simp only [Bool.or_eq_true, Bool.and_eq_true, beq_iff_eq, ih]
    constructor
    · rintro (⟨rfl, hg⟩ | ⟨a, m, b, rfl, hm, hnm⟩)
      · unfold gapGt at hg
        cases hf : findGt rest with
        | none => rw [hf] at hg; simp at hg
        | some p =>
          obtain ⟨x, post⟩ := p
          cases x with
          | nil => rw [hf] at hg; simp at hg
          | cons y ys =>
            refine ⟨[], y :: ys, post, ?_, by simp, findGt_some_not_mem hf⟩
            rw [findGt_some_shape hf]
            rfl
      · exact ⟨c :: a, m, b, rfl, hm, hnm⟩
    · rintro ⟨a, m, b, hl, hm, hnm⟩
      cases a with
      | nil =>
        left
        simp only [List.nil_append, List.cons.injEq] at hl
        refine ⟨hl.1, ?_⟩
        unfold gapGt
        rw [hl.2, findGt_append_gt b hnm]
        cases m with
        | nil => exact absurd rfl hm
        | cons x xs => rfl
      | cons x xs =>
        right
        simp only [List.cons_append, List.cons.injEq] at hl
        exact ⟨xs, m, b, hl.2, hm, hnm⟩

/-- A tag inside the left part survives an append on the right. -/
theorem hasTag_append_true {a : List Char} (b : List Char)
    (h : hasTag a = true) : hasTag (a ++ b) = true := by
  rcases (hasTag_iff a).mp h with ⟨x, m, y, rfl, hm, hnm⟩
  refine (hasTag_iff _).mpr ⟨x, m, y ++ b, ?_, hm, hnm⟩
  simp

/-- A tag-free concatenation has a tag-free left part. -/
theorem hasTag_append_left_false {a b : List Char}
    (h : hasTag (a ++ b) = false) : hasTag a = false := by
  cases ha : hasTag a with
  | false => rfl
  | true => rw [hasTag_append_true b ha] at h; exact absurd h (by simp)

/-- `>`-free lists are tag-free. -/
theorem hasTag_of_not_mem_gt : ∀ {l : List Char}, '>' ∉ l → hasTag l = false := by
  intro l
  induction l with
  | nil => intro h; rfl
  | cons c rest ih =>
    intro h
    simp only [List.mem_cons, not_or] at h
    have hg : gapGt rest = false := by
      unfold gapGt
      rw [findGt_none_iff.mpr h.2]
    rw [hasTag_cons, hg, ih h.2]
    simp

/-- `gapGt` can only fail at a non-`>` head when no `>` follows at all. -/
theorem gapGt_false_elim {c : Char} {t : List Char}
    (hg : gapGt (c :: t) = false) (hc : c ≠ '>') : '>' ∉ c :: t := by
  intro hmem
  rcases List.mem_cons.mp hmem with h1 | h1
  · exact hc h1.symm
  · cases hf : findGt t with
    | none => exact findGt_none_iff.mp hf h1
    | some p =>
      obtain ⟨a, b⟩ := p
      have htrue : gapGt (c :: t) = true := by
        unfold gapGt
        rw [findGt_cons_ne_some hc hf]
      rw [htrue] at hg
      exact absurd hg (by simp)

/-- Tag-strip step at a `<` head with no later `>`. -/
theorem stripTagsGo_succ_lt_none {n : Nat} {rest : List Char}
    (h : findGt rest = none) :
    stripTagsGo (n + 1) ('<' :: rest) = '<' :: stripTagsGo n rest := by
  simp [stripTagsGo, h]

/-- Tag-strip step at a `<` head whose first `>` is adjacent. -/
theorem stripTagsGo_succ_lt_adj {n : Nat} {rest post : List Char}
    (h : findGt rest = some ([], post)) :
    stripTagsGo (n + 1) ('<' :: rest) = '<' :: stripTagsGo n rest := by
  simp [stripTagsGo, h]

/-- Tag-strip step at a matching `<` head: the whole tag becomes one
space. -/
theorem stripTagsGo_succ_lt_tag {n : Nat} {rest post : List Char} {x : Char}
    {xs : List Char} (h : findGt rest = some (x :: xs, post)) :
    stripTagsGo (n + 1) ('<' :: rest) = ' ' :: stripTagsGo n post := by
  simp [stripTagsGo, h]

/-- Tag-strip step at a non-`<` head. -/
theorem stripTagsGo_succ_ne {n : Nat} {c : Char} {rest : List Char}
    (h : c ≠ '<') :
    stripTagsGo (n + 1) (c :: rest) = c :: stripTagsGo n rest := by
  simp [stripTagsGo, h]

/-- The tag stripper is the identity on `>`-free lists. -/
theorem stripTagsGo_of_not_mem_gt : ∀ (n : Nat) {l : List Char},
    '>' ∉ l → stripTagsGo n l = l := by
  intro n
  induction n with
  | zero => intro l _; rfl
  | succ n ih =>
    intro l h
    cases l with
    | nil => rfl
    | cons c rest =>
      simp only [List.mem_cons, not_or] at h
      by_cases hc : c = '<'
      · subst hc
        rw [stripTagsGo_succ_lt_none (findGt_none_iff.mpr h.2), ih h.2]
      · rw [stripTagsGo_succ_ne hc, ih h.2]

/-- Core invariant: a single global pass of the tag-strip regex leaves no
complete tag behind. -/
theorem hasTag_stripTagsGo : ∀ (n : Nat) (l : List Char),
    l.length ≤ n → hasTag (stripTagsGo n l) = false := by
  intro n
  induction n with
  | zero =>
    intro l hl
    rw [List.length_eq_zero.mp (Nat.le_zero.mp hl)]
    rfl
  | succ n ih =>
    intro l hl
    cases l with
    | nil => rfl
    | cons c rest =>
      have hlen : rest.length ≤ n := by
        simp only [List.length_cons] at hl
        omega
      by_cases hc : c = '<'
      · subst hc
        cases hf : findGt rest with
        | none =>
          have hrest : '>' ∉ rest := findGt_none_iff.mp hf
          rw [stripTagsGo_succ_lt_none hf, stripTagsGo_of_not_mem_gt n hrest]
          have hg : gapGt rest = false := by unfold gapGt; rw [hf]
          rw [hasTag_cons, hg, hasTag_of_not_mem_gt hrest]
          simp
        | some p =>
          obtain ⟨a, post⟩ := p
          cases a with
          | nil =>
            rw [stripTagsGo_succ_lt_adj hf]
            have hshape : rest = '>' :: post := by simpa using findGt_some_shape hf
            subst hshape
            have htail := ih ('>' :: post) hlen
            obtain ⟨t, ht⟩ : ∃ t, stripTagsGo n ('>' :: post) = '>' :: t := by
              cases n with
              | zero => exact ⟨post, rfl⟩
              | succ m =>
                exact ⟨stripTagsGo m post, stripTagsGo_succ_ne (by decide)⟩
            rw [ht] at htail
            have hg : gapGt ('>' :: t) = false := by
              unfold gapGt
              rw [findGt_cons_gt]
            rw [ht, hasTag_cons, hg, htail]
            simp
          | cons x xs =>
            rw [stripTagsGo_succ_lt_tag hf]
            have hlen2 : post.length ≤ n := by
              have := findGt_some_length hf
              omega
            have htail := ih post hlen2
            rw [hasTag_cons, htail]
            simp
      · rw [stripTagsGo_succ_ne hc]
        have htail := ih rest hlen
        rw [hasTag_cons, htail]
        simp [hc]

/-- Whitespace collapsing introduces no `>`. -/
theorem not_mem_gt_collapseWs : ∀ {l : List Char},
    '>' ∉ l → '>' ∉ collapseWs l := by
  intro l
  induction l with
  | nil => intro _; simp [collapseWs]
  | cons c rest ih =>
    intro h
    simp only [List.mem_cons, not_or] at h
    cases rest with
    | nil =>
      by_cases hw : c.isWhitespace
      · simp [collapseWs, hw]
      · simp only [collapseWs, if_neg hw, List.mem_singleton]
        exact fun he => h.1 he
    | cons c2 rest2 =>
      by_cases hw : c.isWhitespace
      · by_cases hw2 : c2.isWhitespace
        · simp only [collapseWs, if_pos hw, if_pos hw2]
          exact ih h.2
        · simp only [collapseWs, if_pos hw, if_neg hw2, List.mem_cons, not_or]
          exact ⟨by decide, ih h.2⟩
      · simp only [collapseWs, if_neg hw, List.mem_cons, not_or]
        exact ⟨fun he => h.1 he, ih h.2⟩

/-- A whitespace-collapsed `>`-headed list keeps its `>` head. -/
theorem collapseWs_gt_head (rest : List Char) :
    ∃ t, collapseWs ('>' :: rest) = '>' :: t := by
  cases rest with
  | nil => exact ⟨[], by simp [collapseWs]⟩
  | cons x r =>
    refine ⟨collapseWs (x :: r), ?_⟩
    simp [collapseWs]

/-- Whitespace collapsing preserves tag-freeness. -/
theorem hasTag_collapseWs : ∀ {l : List Char},
    hasTag l = false → hasTag (collapseWs l) = false := by
  intro l
  induction l with
  | nil => intro h; simpa [collapseWs] using h
  | cons c rest ih =>
    intro h
    have hrest : hasTag rest = false := hasTag_cons_false h
    cases rest with
    | nil =>
      by_cases hw : c.isWhitespace <;>
        simp [collapseWs, hw, hasTag_cons, hasTag, gapGt, findGt]
    | cons c2 rest2 =>
      by_cases hw : c.isWhitespace
      · by_cases hw2 : c2.isWhitespace
        · simp only [collapseWs, if_pos hw, if_pos hw2]
          exact ih hrest
        · simp only [collapseWs, if_pos hw, if_neg hw2]
          have htail := ih hrest
          rw [hasTag_cons, htail]
          simp
      · simp only [collapseWs, if_neg hw]
        have htail := ih hrest
        by_cases hc : c = '<'
        · subst hc
          have hg : gapGt (c2 :: rest2) = false := hasTag_cons_gap h
          have hgc : gapGt (collapseWs (c2 :: rest2)) = false := by
            by_cases hc2 : c2 = '>'
            · subst hc2
              obtain ⟨t, ht⟩ := collapseWs_gt_head rest2
              rw [ht]
              unfold gapGt
              rw [findGt_cons_gt]
            · have hnm : '>' ∉ c2 :: rest2 := gapGt_false_elim hg hc2
              unfold gapGt
              rw [findGt_none_iff.mpr (not_mem_gt_collapseWs hnm)]
          rw [hasTag_cons, hgc, htail]
          simp
        · rw [hasTag_cons, htail]
          simp [hc]

/-- Dropping a matched head block preserves tag-freeness. -/
theorem hasTag_dropWhile {p : Char → Bool} : ∀ {l : List Char},
    hasTag l = false → hasTag (l.dropWhile p) = false := by
  intro l
  induction l with
  | nil => intro h; simpa using h
  | cons c rest ih =>
    intro h
    by_cases hp : p c
    · rw [List.dropWhile_cons_of_pos hp]
      exact ih (hasTag_cons_false h)
    · rwa [List.dropWhile_cons_of_neg hp]

/-- Trimming preserves tag-freeness. -/
theorem hasTag_trimWs {l : List Char} (h : hasTag l = false) :
    hasTag (trimWs l) = false := by
  unfold trimWs
  have hx : hasTag (l.dropWhile Char.isWhitespace) = false := hasTag_dropWhile h
  have hsplit :
      ((l.dropWhile Char.isWhitespace).reverse.dropWhile Char.isWhitespace).reverse ++
        ((l.dropWhile Char.isWhitespace).reverse.takeWhile Char.isWhitespace).reverse =
        l.dropWhile Char.isWhitespace := by
    rw [← List.reverse_append, List.takeWhile_append_dropWhile, List.reverse_reverse]
  rw [← hsplit] at hx
  exact hasTag_append_left_false hx


/-- Tag-freeness of the whole cleaning pipeline. -/
theorem hasTag_cleanHtmlToText (s : String) :
    hasTag (cleanHtmlToText s).data = false :=
  hasTag_trimWs (hasTag_collapseWs (hasTag_stripTagsGo _ _ le_rfl))

/-- The C2 claim as stated fails: a `<` whose first following `>` is absent
survives all the replaces, so the output can contain `<`. -/
theorem C2_counterexample :
    cleanHtmlToText "a < b" = "a < b" ∧ '<' ∈ (cleanHtmlToText "a < b").data :=
  ⟨by decide, by decide⟩

/-- C2 (amended): `cleanHtmlToText` is a total function of the input string
(never-throws holds by construction), and its result never contains a
complete tag: no decomposition around a `<`, a nonempty `>`-free middle and
a closing `>` exists.  The amendment is that a markup-free `<` (one not
followed by a matching `>`) may remain in the output, as the counterexample
`a < b` shows. -/
theorem C2_cleanHtml_amended (s : String) :
    ¬ ∃ a m b, (cleanHtmlToText s).data = a ++ '<' :: (m ++ '>' :: b) ∧
      m ≠ [] ∧ '>' ∉ m := by
  intro hex
  have hfalse := hasTag_cleanHtmlToText s
  rw [(hasTag_iff _).mpr hex] at hfalse
  exact absurd hfalse (by simp)

/-- C3: the wake-phrase predicate holds exactly when the trimmed, lowercased
input is `hey jarvis`, optionally followed by a single trailing `.` or `!`;
the spec's four examples classify as stated. -/
theorem C3_wakePhrase :
    (∀ s : String, isWakePhrase s = true ↔
      (jsLower (jsTrim s) = "hey jarvis" ∨ jsLower (jsTrim s) = "hey jarvis." ∨
        jsLower (jsTrim s) = "hey jarvis!")) ∧
    isWakePhrase "Hey Jarvis!" = true ∧
    isWakePhrase "hey jarvis." = true ∧
    isWakePhrase "HEY JARVIS" = true ∧
    isWakePhrase "hey, jarvis" = false := by
  refine ⟨fun s => ?_, by decide, by decide, by decide, by decide⟩
  simp only [isWakePhrase, Bool.or_eq_true, beq_iff_eq, or_assoc]

/-- C4: the booking-intent predicate holds exactly when the lowercased text
contains one of the six keywords as a substring, or both `call` and `book`;
`call me back` is rejected and `call to book now` accepted. -/
theorem C4_bookingIntent :
    (∀ s : String, isBookingIntent s = true ↔
      (containsSub "book" (jsLower s) ∨ containsSub "booking" (jsLower s) ∨
        containsSub "appointment" (jsLower s) ∨ containsSub "schedule" (jsLower s) ∨
        containsSub "reserve" (jsLower s) ∨ containsSub "consultation" (jsLower s) ∨
        (containsSub "call" (jsLower s) ∧ containsSub "book" (jsLower s)))) ∧
    isBookingIntent "call me back" = false ∧
    isBookingIntent "call to book now" = true := by
  refine ⟨fun s => ?_, by decide, by decide⟩
  simp only [isBookingIntent, Bool.or_eq_true, Bool.and_eq_true, ← occursS_iff, occursS,
    or_assoc]

/-- Inside an unexpired window the limiter increments the count on every
request and answers by comparing it with the ceiling. -/
theorem runTimes_window : ∀ (ts : List Nat) (c r : Nat), (∀ t ∈ ts, t ≤ r) →
    runTimes ts (some ⟨c, r⟩) = (expectedOutcomes c ts.length, some ⟨c + ts.length, r⟩) := by
  intro ts
  induction ts with
  | nil => intro c r _; simp [runTimes, expectedOutcomes]
  | cons t ts ih =>
    intro c r h
    have ht : ¬ r < t := Nat.not_lt.mpr (h t (List.mem_cons_self t ts))
    have hstep : rateLimitStep (some ⟨c, r⟩) t =
        ((if c + 1 > RATE_MAX then RateOutcome.reject 429 rateLimitMsg
          else RateOutcome.next), ⟨c + 1, r⟩) := by
      by_cases hcnt : c + 1 > RATE_MAX <;>
        simp [rateLimitStep, ht, hcnt]
    simp only [runTimes, hstep]
    rw [ih (c + 1) r (fun t' ht' => h t' (List.mem_cons_of_mem t ht'))]
    have harith : c + 1 + ts.length = c + (ts.length + 1) := by omega
    rw [harith]
    rfl

/-- The expected outcomes spell out as: position `i` passes iff fewer than
`RATE_MAX` requests preceded it in the window. -/
theorem expectedOutcomes_eq : ∀ (n c : Nat), expectedOutcomes c n =
    (List.range n).map
      (fun i => if c + i < RATE_MAX then RateOutcome.next
        else RateOutcome.reject 429 rateLimitMsg) := by
  intro n
  induction n with
  | zero => intro c; simp [expectedOutcomes]
  | succ n ih =>
    intro c
    rw [List.range_succ_eq_map, List.map_cons, List.map_map]
    simp only [expectedOutcomes, List.cons.injEq]
    constructor
    · by_cases hc : c < RATE_MAX
      · rw [if_neg (by unfold RATE_MAX at hc ⊢; omega), if_pos (by omega)]
      · rw [if_pos (by unfold RATE_MAX at hc ⊢; omega), if_neg (by omega)]
    · rw [ih (c + 1)]
      apply List.map_congr_left
      intro i _
      simp only [Function.comp_apply]
      have harith : c + 1 + i = c + Nat.succ i := by omega
      rw [harith]

/-- C5: starting from no stored entry, a first request at `t0` and any
further requests inside its window are answered by position alone: the
first `RATE_MAX` pass and every later one is rejected with status 429 and
the retry message; and a request arriving strictly after any stored
`resetAt` restarts the window at count 1 and passes, whatever the prior
count was. -/
theorem C5_rateLimit_window (t0 : Nat) (ts : List Nat)
    (h : ∀ t ∈ ts, t ≤ t0 + RATE_WINDOW_MS) :
    (runTimes (t0 :: ts) none).1 =
      (List.range (ts.length + 1)).map
        (fun i => if i < RATE_MAX then RateOutcome.next
          else RateOutcome.reject 429 rateLimitMsg) ∧
    ∀ (e : RateEntry) (now : Nat), e.resetAt < now →
      rateLimitStep (some e) now = (RateOutcome.next, ⟨1, now + RATE_WINDOW_MS⟩) := by
  constructor
  · have hrun := runTimes_window ts 1 (t0 + RATE_WINDOW_MS) h
    have hhead : (runTimes (t0 :: ts) none).1 =
        RateOutcome.next :: (runTimes ts (some ⟨1, t0 + RATE_WINDOW_MS⟩)).1 := rfl
    rw [hhead, hrun, List.range_succ_eq_map, List.map_cons, List.map_map]
    simp only [List.cons.injEq]
    constructor
    · simp [RATE_MAX]
    · rw [expectedOutcomes_eq ts.length 1]
      apply List.map_congr_left
      intro i _
      simp only [Function.comp_apply]
      have harith : 1 + i = Nat.succ i := by omega
      rw [harith]
  · intro e now hnow
    simp [rateLimitStep, hnow]

/-- Witness for C5: 66 same-window requests, and a fresh-window restart
from a full counter. -/
theorem C5_rateLimit_window_witness :
    (∀ t ∈ List.replicate 65 5, t ≤ 0 + RATE_WINDOW_MS) ∧
    (runTimes (0 :: List.replicate 65 5) none).1 =
      (List.range 66).map
        (fun i => if i < RATE_MAX then RateOutcome.next
          else RateOutcome.reject 429 rateLimitMsg) ∧
    (⟨40, 100⟩ : RateEntry).resetAt < 101 ∧
    rateLimitStep (some ⟨40, 100⟩) 101 =
      (RateOutcome.next, ⟨1, 101 + RATE_WINDOW_MS⟩) := by
  have h : ∀ t ∈ List.replicate 65 5, t ≤ 0 + RATE_WINDOW_MS := by decide
  have main := C5_rateLimit_window 0 (List.replicate 65 5) h
  refine ⟨h, ?_, by decide, main.2 ⟨40, 100⟩ 101 (by decide)⟩
  simpa using main.1

/-- The middleware writes only the resolved client's key. -/
theorem rateLimitReq_map_other (m : RMap) (r : Req) {a : String}
    (hip : getIP r ≠ a) : (rateLimitReq m r).2 a = m a := by
  simp only [rateLimitReq]
  rw [if_neg (fun ha => hip ha.symm)]

/-- The middleware stores the stepped entry under the resolved client's
key. -/
theorem rateLimitReq_map_self (m : RMap) (r : Req) :
    (rateLimitReq m r).2 (getIP r) = some (rateLimitStep (m (getIP r)) r.now).2 := by
  simp [rateLimitReq]

/-- Interleaved foreign-address requests change neither the outcomes seen
by address `a` nor its stored entry. -/
theorem runReqs_isolate : ∀ (rs : List Req) (m m' : RMap) (a : String),
    m a = m' a →
    ((runReqs rs m).1.filter (fun p => getIP p.1 == a) =
      (runReqs (rs.filter (fun r => getIP r == a)) m').1) ∧
    (runReqs rs m).2 a = (runReqs (rs.filter (fun r => getIP r == a)) m').2 a := by
  intro rs
  induction rs with
  | nil => intro m m' a h; exact ⟨rfl, h⟩
  | cons r rest ih =>
    intro m m' a h
    by_cases hip : getIP r = a
    · have hentry : m (getIP r) = m' (getIP r) := by rw [hip]; exact h
      have hq : (getIP r == a) = true := by simp [hip]
      have hmaps : (rateLimitReq m r).2 a = (rateLimitReq m' r).2 a := by
        rw [← hip, rateLimitReq_map_self, rateLimitReq_map_self, hentry]
      have htail := ih (rateLimitReq m r).2 (rateLimitReq m' r).2 a hmaps
      have hfreq : List.filter (fun x => getIP x == a) (r :: rest) =
          r :: List.filter (fun x => getIP x == a) rest := by
        simp only [List.filter_cons, hq, if_true]
      rw [hfreq]
      constructor
      · show ((r, (rateLimitReq m r).1) ::
            (runReqs rest (rateLimitReq m r).2).1).filter (fun p => getIP p.1 == a) =
          (r, (rateLimitReq m' r).1) ::
            (runReqs (rest.filter (fun x => getIP x == a)) (rateLimitReq m' r).2).1
        have hfout : ((r, (rateLimitReq m r).1) ::
            (runReqs rest (rateLimitReq m r).2).1).filter (fun p => getIP p.1 == a) =
            (r, (rateLimitReq m r).1) ::
              ((runReqs rest (rateLimitReq m r).2).1).filter (fun p => getIP p.1 == a) := by
          simp only [List.filter_cons, hq, if_true]
        rw [hfout]
        have hout : (rateLimitReq m r).1 = (rateLimitReq m' r).1 := by
          simp only [rateLimitReq]
          rw [hentry]
        rw [hout]
        exact congrArg _ htail.1
      · exact htail.2
    · have hq : (getIP r == a) = false := by simp [hip]
      have hmaps : (rateLimitReq m r).2 a = m' a := by
        rw [rateLimitReq_map_other m r hip]
        exact h
      have htail := ih (rateLimitReq m r).2 m' a hmaps
      have hfreq : List.filter (fun x => getIP x == a) (r :: rest) =
          List.filter (fun x => getIP x == a) rest := by
        simp only [List.filter_cons, hq]
        simp
      rw [hfreq]
      constructor
      · show ((r, (rateLimitReq m r).1) ::
            (runReqs rest (rateLimitReq m r).2).1).filter (fun p => getIP p.1 == a) =
          (runReqs (rest.filter (fun x => getIP x == a)) m').1
        have hfout : ((r, (rateLimitReq m r).1) ::
            (runReqs rest (rateLimitReq m r).2).1).filter (fun p => getIP p.1 == a) =
            ((runReqs rest (rateLimitReq m r).2).1).filter (fun p => getIP p.1 == a) := by
          simp only [List.filter_cons, hq]
          simp
        rw [hfout]
        exact htail.1
      · exact htail.2

/-- The stable insert keeps the per-score subsequences intact: an element
is inserted before exactly the strictly-smaller scores. -/
theorem filter_orderedInsert (s : Nat) (x : Doc × Nat) :
    ∀ l : List (Doc × Nat),
    (List.orderedInsert (fun a b => b.2 ≤ a.2) x l).filter (fun y => y.2 == s) =
      if x.2 = s then x :: l.filter (fun y => y.2 == s)
      else l.filter (fun y => y.2 == s) := by
  intro l
  induction l with
  | nil =>
    by_cases hx : x.2 = s <;>
      simp [List.orderedInsert, List.filter_cons, hx]
  | cons y l ih =>
    by_cases hr : y.2 ≤ x.2
    · simp only [List.orderedInsert, if_pos hr]
      by_cases hx : x.2 = s <;>
        simp [List.filter_cons, hx]
    · simp only [List.orderedInsert, if_neg hr]
      by_cases hx : x.2 = s
      · have hy : (y.2 == s) = false := by
          apply beq_eq_false_iff_ne.mpr
          intro hys
          exact hr (by omega)
        simp only [List.filter_cons, hy, ih, if_pos hx]
        simp
      · simp only [List.filter_cons, ih, if_neg hx]

/-- The stable sort keeps the per-score subsequences intact. -/
theorem filter_insertionSort (s : Nat) :
    ∀ l : List (Doc × Nat),
    (List.insertionSort (fun a b => b.2 ≤ a.2) l).filter (fun y => y.2 == s) =
      l.filter (fun y => y.2 == s) := by
  intro l
  induction l with
  | nil => rfl
  | cons x l ih =>
    simp only [List.insertionSort]
    rw [filter_orderedInsert, ih]
    by_cases hx : x.2 = s <;>
      simp [List.filter_cons, hx]

/-- The fold in `scoreDoc` counts qualifying tokens, two points each. -/
theorem scoreDoc_foldl (d : List Char) :
    ∀ (ws : List (List Char)) (sc : Nat),
    ws.foldl
      (fun sc w =>
        if w.length < 3 then sc
        else if occursIn w d then sc + 2 else sc) sc =
      sc + 2 * (ws.filter (fun w => decide (3 ≤ w.length) && occursIn w d)).length := by
  intro ws
  induction ws with
  | nil => intro sc; simp
  | cons w ws ih =>
    intro sc
    by_cases hlen : w.length < 3
    · have hlf : (decide (3 ≤ w.length)) = false := decide_eq_false_iff_not.mpr (by omega)
      simp [List.foldl_cons, List.filter_cons, hlen, hlf, ih]
    · have hlt : (decide (3 ≤ w.length)) = true := decide_eq_true (by omega)
      cases hocc : occursIn w d with
      | true =>
        simp [List.foldl_cons, List.filter_cons, hlen, hlt, hocc, ih]
        try omega
      | false =>
        simp [List.foldl_cons, List.filter_cons, hlen, hlt, hocc, ih]
        try omega

/-- Retrieval on an unindexed site key is empty. -/
theorem pickTopDocs_none {store : Store} {k q : String} {topK : Nat}
    (hk : store k = none) : pickTopDocs store k q topK = [] := by
  unfold pickTopDocs
  rw [hk]

/-- Retrieval on an indexed site key reduces to take-of-ranked. -/
theorem pickTopDocs_some {store : Store} {k q : String} {topK : Nat}
    {site : SiteEntry} (hk : store k = some site) :
    pickTopDocs store k q topK =
      if site.pages.isEmpty then [] else (rankedDocs site.pages q).take topK := by
  unfold pickTopDocs
  rw [hk]

/-- C6: every retrieved item has a positive score equal to `scoreDoc` of
its body and comes from the site's indexed pages; at most `topK = 3` items
are returned, in descending score order; the candidate ranking is stable
(per-score subsequences keep the original page order); missing or empty
indexes yield the empty result; and a score is 2 points per
whitespace-separated query token of length at least 3 occurring in the
lowercased body. -/
theorem C6_retrieval (store : Store) (k q : String) :
    (∀ x ∈ pickTopDocs store k q 3, 0 < x.2 ∧ x.2 = scoreDoc q x.1.text ∧
      ∃ e, store k = some e ∧ x.1 ∈ e.pages) ∧
    (pickTopDocs store k q 3).length ≤ 3 ∧
    List.Sorted (fun a b : Doc × Nat => b.2 ≤ a.2) (pickTopDocs store k q 3) ∧
    (∀ (pages : List Doc) (s : Nat),
      (rankedDocs pages q).filter (fun y => y.2 == s) =
        ((scoredPages pages q).filter (fun p => decide (0 < p.2))).filter
          (fun y => y.2 == s)) ∧
    (store k = none → pickTopDocs store k q 3 = []) ∧
    (∀ e, store k = some e → e.pages = [] → pickTopDocs store k q 3 = []) ∧
    (∀ query docText : String, scoreDoc query docText =
      2 * ((tokens (jsLower query).data).filter
        (fun w => decide (3 ≤ w.length) && occursIn w (jsLower docText).data)).length) := by
  refine ⟨?_, ?_, ?_, ?_, ?_, ?_, ?_⟩
  · intro x hx
    cases hk : store k with
    | none => rw [pickTopDocs_none hk] at hx; simp at hx
    | some site =>
      rw [pickTopDocs_some hk] at hx
      by_cases hp : site.pages.isEmpty
      · rw [if_pos hp] at hx; simp at hx
      · rw [if_neg hp] at hx
        have hx2 : x ∈ rankedDocs site.pages q := List.take_subset 3 _ hx
        rw [rankedDocs, List.mem_insertionSort] at hx2
        have hx3 := List.mem_filter.mp hx2
        have hpos : 0 < x.2 := of_decide_eq_true hx3.2
        rcases List.mem_map.mp hx3.1 with ⟨p, hpmem, hpx⟩
        refine ⟨hpos, ?_, site, rfl, ?_⟩
        · rw [← hpx]
        · rw [← hpx]
          exact hpmem
  · cases hk : store k with
    | none => rw [pickTopDocs_none hk]; simp
    | some site =>
      rw [pickTopDocs_some hk]
      by_cases hp : site.pages.isEmpty
      · rw [if_pos hp]; simp
      · rw [if_neg hp]
        rw [List.length_take]
        exact min_le_left 3 _
  · cases hk : store k with
    | none => rw [pickTopDocs_none hk]; exact List.sorted_nil
    | some site =>
      rw [pickTopDocs_some hk]
      by_cases hp : site.pages.isEmpty
      · rw [if_pos hp]; exact List.sorted_nil
      · rw [if_neg hp]
        exact List.Pairwise.sublist (List.take_sublist 3 _)
          (List.sorted_insertionSort _ _)
  · intro pages s
    exact filter_insertionSort s _
  · intro hk
    exact pickTopDocs_none hk
  · intro e hk hp
    rw [pickTopDocs_some hk, if_pos (by simp [hp])]
  · intro query docText
    rw [scoreDoc, scoreDoc_foldl]
    omega

/-- Witness for C6 on the fixture store: membership facts and the empty
cases, through the theorem. -/
theorem C6_retrieval_witness :
    ((siteDocA, 2) ∈ pickTopDocs store1 "ex.com" "plumbing help" 3) ∧
    (0 < (siteDocA, 2).2 ∧ (siteDocA, 2).2 = scoreDoc "plumbing help" (siteDocA, 2).1.text ∧
      ∃ e, store1 "ex.com" = some e ∧ (siteDocA, 2).1 ∈ e.pages) ∧
    (store1 "missing.test" = none) ∧
    pickTopDocs store1 "missing.test" "plumbing help" 3 = [] :=
  ⟨by decide,
    (C6_retrieval store1 "ex.com" "plumbing help").1 (siteDocA, 2) (by decide),
    by decide,
    (C6_retrieval store1 "missing.test" "plumbing help").2.2.2.2.1 (by decide)⟩

/-- C7: the successful sync maps every fetched item to a Document (title
defaulted when absent, URL as given, body cleaned), discards exactly the
items with cleaned body under 40 characters, and on the spec's 2-pages-and-
1-post scenario (one page too short) stores exactly 2 documents and reports
count 2. -/
theorem C7_syncMapping :
    (∀ items : List WPItem, buildDocs items =
      (items.map itemToDoc).filter (fun d => decide (40 ≤ d.text.length))) ∧
    (∀ p : WPItem, p.titleRendered = none → (itemToDoc p).title = "Untitled") ∧
    (∀ p : WPItem, (itemToDoc p).url = jsOrStr p.link "" ∧
      (itemToDoc p).text = cleanHtmlToText (jsOrStr p.contentRendered "")) ∧
    (syncSiteContent fetch1 "https://ex.com" "ex.com" 1000 emptyStore emptySyncSt).2 =
      Except.ok 2 ∧
    ((syncSiteContent fetch1 "https://ex.com" "ex.com" 1000 emptyStore
        emptySyncSt).1.1 "ex.com").map (fun e => e.pages.length) = some 2 := by
  refine ⟨?_, ?_, ?_, by decide, by decide⟩
  · intro items
    induction items with
    | nil => rfl
    | cons p rest ih =>
      by_cases hlen : (itemToDoc p).text.length < 40
      · have hg : (decide (40 ≤ (itemToDoc p).text.length)) = false :=
          decide_eq_false_iff_not.mpr (by omega)
        simp only [buildDocs, if_pos hlen, List.map_cons, List.filter_cons, hg, ih]
        simp
      · have hg : (decide (40 ≤ (itemToDoc p).text.length)) = true :=
          decide_eq_true (by omega)
        simp only [buildDocs, if_neg hlen, List.map_cons, List.filter_cons, hg, ih]
        simp
  · intro p h
    simp [itemToDoc, jsOrStr, h]
  · intro p
    exact ⟨rfl, rfl⟩

/-- Witness for C7: the title default fires on an item with no rendered
title. -/
theorem C7_syncMapping_witness :
    (itemToDoc ⟨7, none, none, none⟩).title = "Untitled" :=
  C7_syncMapping.2.1 ⟨7, none, none, none⟩ rfl

/-- C8: when either fetch is non-ok the sync returns the state untouched
(no index write, no cooldown write) together with the error carrying both
statuses and both 120-character-truncated bodies; on success the index
entry is replaced wholesale (documents, timestamp and base URL in one
record), the cooldown is set to now, and the document count is reported.
The cooldown is thus updated only on successful sync. -/
theorem C8_syncAtomicity (fetch : String → FetchResult) (base siteKey : String)
    (now : Nat) (store : Store) (syncSt : SyncSt) :
    (((fetch (pagesUrl base)).ok && (fetch (postsUrl base)).ok) = false →
      syncSiteContent fetch base siteKey now store syncSt =
        ((store, syncSt),
          Except.error ("Failed WP REST fetch. pages(" ++
            toString (fetch (pagesUrl base)).status ++ ") posts(" ++
            toString (fetch (postsUrl base)).status ++ ") :: " ++
            (⟨(fetch (pagesUrl base)).textBody.data.take 120⟩ : String) ++ " " ++
            (⟨(fetch (postsUrl base)).textBody.data.take 120⟩ : String)))) ∧
    (((fetch (pagesUrl base)).ok && (fetch (postsUrl base)).ok) = true →
      (syncSiteContent fetch base siteKey now store syncSt).1.1 siteKey =
        some ⟨buildDocs ((fetch (pagesUrl base)).jsonItems ++
          (fetch (postsUrl base)).jsonItems), now, base⟩ ∧
      (syncSiteContent fetch base siteKey now store syncSt).1.2 siteKey = some now ∧
      (syncSiteContent fetch base siteKey now store syncSt).2 =
        Except.ok (buildDocs ((fetch (pagesUrl base)).jsonItems ++
          (fetch (postsUrl base)).jsonItems)).length) := by
  constructor
  · intro h
    simp only [syncSiteContent, h]
    rfl
  · intro h
    refine ⟨?_, ?_, ?_⟩ <;> simp [syncSiteContent, h, markSynced]

/-- Witness for C8: a failing fetch pair leaves the maps untouched, and the
scenario sync marks the cooldown. -/
theorem C8_syncAtomicity_witness :
    ((fetch1 (pagesUrl "https://nowhere.test")).ok &&
      (fetch1 (postsUrl "https://nowhere.test")).ok) = false ∧
    syncSiteContent fetch1 "https://nowhere.test" "k" 5 emptyStore emptySyncSt =
      ((emptyStore, emptySyncSt),
        Except.error ("Failed WP REST fetch. pages(" ++
          toString (fetch1 (pagesUrl "https://nowhere.test")).status ++ ") posts(" ++
          toString (fetch1 (postsUrl "https://nowhere.test")).status ++ ") :: " ++
          (⟨(fetch1 (pagesUrl "https://nowhere.test")).textBody.data.take 120⟩ : String) ++
          " " ++
          (⟨(fetch1 (postsUrl "https://nowhere.test")).textBody.data.take 120⟩ : String))) ∧
    ((fetch1 (pagesUrl "https://ex.com")).ok && (fetch1 (postsUrl "https://ex.com")).ok) = true ∧
    (syncSiteContent fetch1 "https://ex.com" "ex.com" 1000 emptyStore
      emptySyncSt).1.2 "ex.com" = some 1000 :=
  ⟨by decide,
    (C8_syncAtomicity fetch1 "https://nowhere.test" "k" 5 emptyStore emptySyncSt).1
      (by decide),
    by decide,
    ((C8_syncAtomicity fetch1 "https://ex.com" "ex.com" 1000 emptyStore
      emptySyncSt).2 (by decide)).2.1⟩

/-- The C9 claim as stated fails: a supplied, non-empty but whitespace-only
booking URL is trimmed to empty, so the reply carries no `open_url` action
at all. -/
theorem C9_counterexample :
    isBookingIntent bodyBook.text = true ∧
    bodyBook.bookingUrl ≠ "" ∧
    (chatHandler env0 bodyBook st0).1.actions = [] ∧
    (chatHandler env0 bodyBook st0).1.replyText =
      "Sure — I can help you book. Please set your Booking Page URL in WordPress → Jarvis settings." :=
  ⟨by decide, by decide, by decide, by decide⟩

/-- C9 (amended): past the rate limiter, a wake-phrase text is answered
with exactly `How can I help you?`, no sources, no actions, and without
touching the site index or the sync cooldown (no sync, no retrieval);
otherwise a booking-intent text with a booking URL that is non-empty after
trimming is answered with a single `open_url` action carrying exactly the
trimmed URL, and a booking-intent text whose booking URL trims to empty
gets the setup-needed reply — in both cases stopping before any sync or
retrieval.  The amendment replaces the claim's `non-empty booking URL` and
`exactly that URL` by `non-empty after trimming` and `the trimmed URL`. -/
theorem C9_chat_shortCircuit (env : ChatEnv) (body : ChatBody) (st : ServerState) :
    (isWakePhrase (jsTrim body.text) = true →
      (chatHandler env body st).1 = ⟨"How can I help you?", [], [], none⟩ ∧
      (chatHandler env body st).2.siteStore = st.siteStore ∧
      (chatHandler env body st).2.syncSt = st.syncSt) ∧
    (isWakePhrase (jsTrim body.text) = false →
      isBookingIntent (jsTrim body.text) = true →
      jsTrim body.bookingUrl ≠ "" →
      (chatHandler env body st).1 =
        ⟨"Sure — I’m taking you to the booking page now.",
          [⟨"open_url", jsTrim body.bookingUrl⟩], [], none⟩ ∧
      (chatHandler env body st).2.siteStore = st.siteStore ∧
      (chatHandler env body st).2.syncSt = st.syncSt) ∧
    (isWakePhrase (jsTrim body.text) = false →
      isBookingIntent (jsTrim body.text) = true →
      jsTrim body.bookingUrl = "" →
      (chatHandler env body st).1 =
        ⟨"Sure — I can help you book. Please set your Booking Page URL in WordPress → Jarvis settings.",
          [], [], none⟩ ∧
      (chatHandler env body st).2.siteStore = st.siteStore ∧
      (chatHandler env body st).2.syncSt = st.syncSt) := by
  refine ⟨fun hw => ?_, fun hw hb hurl => ?_, fun hw hb hurl => ?_⟩
  · simp [chatHandler, hw]
  · simp [chatHandler, hw, hb, hurl]
  · simp [chatHandler, hw, hb, hurl]

/-- Witness for C9: the spec's wake and booking scenarios through the
theorem, plus the concrete `open_url` payload. -/
theorem C9_chat_shortCircuit_witness :
    ((chatHandler env0 bodyWake st0).1 = ⟨"How can I help you?", [], [], none⟩ ∧
      (chatHandler env0 bodyWake st0).2.siteStore = st0.siteStore ∧
      (chatHandler env0 bodyWake st0).2.syncSt = st0.syncSt) ∧
    ((chatHandler env0 bodyBookGood st0).1 =
        ⟨"Sure — I’m taking you to the booking page now.",
          [⟨"open_url", jsTrim bodyBookGood.bookingUrl⟩], [], none⟩ ∧
      (chatHandler env0 bodyBookGood st0).2.siteStore = st0.siteStore ∧
      (chatHandler env0 bodyBookGood st0).2.syncSt = st0.syncSt) ∧
    (chatHandler env0 bodyBookGood st0).1.actions =
      [⟨"open_url", "https://x.test/book"⟩] :=
  ⟨(C9_chat_shortCircuit env0 bodyWake st0).1 (by decide),
    (C9_chat_shortCircuit env0 bodyBookGood st0).2.1 (by decide) (by decide) (by decide),
    by decide⟩

/-- C10: the rate limiter isolates clients.  For every request sequence and
every address, the per-request outcomes attributed to that address equal
those of running only that address's requests, and the stored entry for the
address is likewise independent of interleaved foreign requests. -/
theorem C10_rateLimit_isolation (rs : List Req) (a : String) :
    ((runReqs rs emptyRMap).1.filter (fun p => getIP p.1 == a) =
      (runReqs (rs.filter (fun r => getIP r == a)) emptyRMap).1) ∧
    (runReqs rs emptyRMap).2 a =
      (runReqs (rs.filter (fun r => getIP r == a)) emptyRMap).2 a :=
  runReqs_isolate rs emptyRMap emptyRMap a rfl

end Jarvis
